import Mathlib

/-!
Verification of the EPI evidence-container CLI (epi_cli) against its
specification.  The Python sources are shallowly embedded: strings become
lists of Unicode codepoints or Lean `String`s, byte payloads become
`List Nat`, archives become association lists of named entries, exceptions
become `Except` results, and the filesystem becomes an explicit map from
paths to optional contents.
-/

namespace EPI

/-- A byte payload of an archive entry (each element one byte value). -/
abbrev Bytes := List Nat

/-- An archive entry name. -/
abbrev EntryName := String

/-- A zip archive, modelled as its ordered list of (name, payload) entries. -/
abbrev Archive := List (EntryName × Bytes)

/-- Reading one entry's payload from an archive (`ZipFile.read(name)`). -/
def lookupEntry (archive : Archive) (name : EntryName) : Option Bytes :=
  (archive.find? (fun e => e.1 == name)).map Prod.snd

/- ### `_ensure_python_command` (src/epi_cli/run.py lines 57-66)

Python strings are modelled as lists of Unicode codepoints; `str.lower` is
codepoint-wise ASCII lowering (faithful on the ASCII suffix `.py` the code
tests for). -/

/-- A Python string as its list of Unicode codepoints. -/
abbrev PyStr := List Nat

/-- Codepoint-wise lowercasing, as `str.lower()` acts on ASCII letters. -/
def lowerCP (n : Nat) : Nat := if 65 ≤ n ∧ n ≤ 90 then n + 32 else n

/-- Embedding of `first.lower()` from `_ensure_python_command`. -/
def pyLower (s : PyStr) : PyStr := s.map lowerCP

/-- The codepoints of ".py" (the suffix tested by `endswith('.py')`). -/
def dotPyCP : PyStr := ['.'.toNat, 'p'.toNat, 'y'.toNat]

/-- Embedding of `_ensure_python_command` from src/epi_cli/run.py:
if the command list is non-empty and its first element, lowercased,
ends with ".py", prepend `sys.executable` (a parameter here); otherwise
return the list unchanged. -/
def ensure_python_command (sysExecutable : PyStr) (cmd : List PyStr) :
    List PyStr :=
  match cmd with
  | [] => cmd
  | first :: _ =>
      if dotPyCP.isSuffixOf (pyLower first) then sysExecutable :: cmd
      else cmd

/-- The claim's own reading of the test: the string ends with '.', then a
'p' of either case, then a 'y' of either case. -/
def endsWithPyCI (s : PyStr) : Prop :=
  ∃ t c1 c2, s = t ++ ['.'.toNat, c1, c2] ∧
    (c1 = 'p'.toNat ∨ c1 = 'P'.toNat) ∧ (c2 = 'y'.toNat ∨ c2 = 'Y'.toNat)

/- ### `_verify_recording` (src/epi_cli/run.py lines 97-130)

The helpers it calls (`EPIContainer.read_manifest`, `verify_integrity`,
`KeyManager.load_public_key`, `verify_signature`) live outside this
function; their outcomes are parameters of the embedding.  A raised Python
exception is an `Except.error`; `FileNotFoundError` is the only exception
class the inner handler catches. -/

/-- A raised Python exception, as `_verify_recording` discriminates them. -/
inductive PyExc where
  | fileNotFound (msg : String)
  | other (msg : String)
  deriving DecidableEq

/-- The `str(e)` text interpolated into "Verification failed: {e}". -/
def excMsg : PyExc → String
  | .fileNotFound m => m
  | .other m => m

/-- Signature block of a manifest; only the signer label read by
`get_signer_name` matters to the control flow embedded here. -/
structure SignatureBlock where
  signer : Option String
  deriving DecidableEq

/-- The manifest as `_verify_recording` consumes it. -/
structure ManifestModel where
  signature : Option SignatureBlock
  deriving DecidableEq

/-- Embedding of `signer_name or "default"`: Python `or` falls through on
`None` and on the empty string. -/
def signerOrDefault : Option String → String
  | none => "default"
  | some s => if s = "" then "default" else s

/-- Outcomes of the external calls made by `_verify_recording`. -/
structure VerifyEnv where
  readManifest : Except PyExc ManifestModel
  verifyIntegrity : Except PyExc (Bool × List EntryName)
  loadPublicKey : String → Except PyExc Nat
  verifySignature : Nat → Except PyExc (Bool × String)

/-- Embedding of `_verify_recording` (src/epi_cli/run.py lines 97-130):
read the manifest and check integrity; on integrity failure report the
mismatch count; if a signature block is present, load the signer's public
key (falling back to "default") and verify; a `FileNotFoundError` from the
inner block yields an optimistic pass; any other exception anywhere is
caught by the outer handler and converted to `(false, reason)`. -/
def verifyRecording (env : VerifyEnv) : Bool × String :=
  match env.readManifest with
  | .error e => (false, "Verification failed: " ++ excMsg e)
  | .ok manifest =>
    match env.verifyIntegrity with
    | .error e => (false, "Verification failed: " ++ excMsg e)
    | .ok (integrityOk, mismatches) =>
      if integrityOk = false then
        (false, "Integrity check failed (" ++ toString mismatches.length ++
          " mismatches)")
      else
        match manifest.signature with
        | some sig =>
          match env.loadPublicKey (signerOrDefault sig.signer) with
          | .error (.fileNotFound _) => (true, "OK (unsigned - no public key)")
          | .error (.other m) => (false, "Verification failed: " ++ m)
          | .ok publicKey =>
            match env.verifySignature publicKey with
            | .error (.fileNotFound _) => (true, "OK (unsigned - no public key)")
            | .error (.other m) => (false, "Verification failed: " ++ m)
            | .ok (valid, msg) =>
              if valid then (true, "OK (signed & verified)")
              else (false, "Signature invalid: " ++ msg)
        | none => (true, "OK (unsigned)")

/-- Concrete environment: signed manifest, signer "alice", no local key. -/
def envKeyMissing : VerifyEnv :=
  ⟨.ok ⟨some ⟨some "alice"⟩⟩, .ok (true, []),
    fun _ => .error (.fileNotFound "key file not found"),
    fun _ => .ok (true, "")⟩

/-- Concrete environment: unsigned manifest. -/
def envUnsigned : VerifyEnv :=
  ⟨.ok ⟨none⟩, .ok (true, []),
    fun _ => .error (.fileNotFound "key file not found"),
    fun _ => .ok (true, "")⟩

/-- Concrete environment: signed manifest, key loads, signature rejected. -/
def envSigRejected : VerifyEnv :=
  ⟨.ok ⟨some ⟨some "alice"⟩⟩, .ok (true, []),
    fun _ => .ok 7,
    fun _ => .ok (false, "digest mismatch")⟩

/-- Concrete environment: reading the manifest raises. -/
def envReadRaises : VerifyEnv :=
  ⟨.error (.other "zip is corrupt"), .ok (true, []),
    fun _ => .ok 0, fun _ => .ok (true, "")⟩

/-- Concrete environment: two integrity mismatches. -/
def envTampered : VerifyEnv :=
  ⟨.ok ⟨none⟩, .ok (false, ["steps.jsonl", "stdout.log"]),
    fun _ => .ok 0, fun _ => .ok (true, "")⟩

/- ### Tail of the `run` command (src/epi_cli/run.py lines 242-318)

After `EPIContainer.pack` writes the archive, `run` attempts an auto-sign
(lines 242-272, exceptions swallowed), verifies unless `--no-verify`
(lines 274-278), and exits (lines 313-318).  The auto-sign outcome and the
verifier are parameters of the embedding. -/

/-- State of the `run` command right after packing: child return code,
`--no-verify` flag, the archive `pack` left at the output path, the
outcome of the auto-sign block, and the verifier called on the archive at
the output path. -/
structure RunState where
  rc : Int
  noVerify : Bool
  archiveAtOut : Archive
  signOutcome : Except String Archive
  verifyFn : Archive → Bool × String

/-- What the `run` command reports and how it exits. -/
structure RunResult where
  archive : Archive
  signed : Bool
  verified : Bool
  verifyMsg : String
  exitCode : Int

/-- Embedding of the auto-sign `try`/`except` (lines 242-272): on success
the re-signed archive sits at the output path and `signed = True`; on any
exception the block falls through to `pass`, leaving the original archive
and `signed = False`. -/
def stagedArchive (s : RunState) : Archive × Bool :=
  match s.signOutcome with
  | .error _ => (s.archiveAtOut, false)
  | .ok a => (a, true)

/-- Embedding of lines 274-278: `verified = False; verify_msg = "Skipped"`
unless verification runs. -/
def runVerifyStep (s : RunState) : Bool × String :=
  if s.noVerify then (false, "Skipped") else s.verifyFn (stagedArchive s).1

/-- Embedding of lines 313-318: child failure exits with its code,
otherwise a failed (and not skipped) verification exits 1, otherwise 0. -/
def runExitCode (s : RunState) : Int :=
  if s.rc ≠ 0 then s.rc
  else if (runVerifyStep s).1 = false ∧ s.noVerify = false then 1
  else 0

/-- The composed tail of the `run` command. -/
def runTail (s : RunState) : RunResult :=
  ⟨(stagedArchive s).1, (stagedArchive s).2, (runVerifyStep s).1,
    (runVerifyStep s).2, runExitCode s⟩

/-- A concrete run state whose auto-sign step failed. -/
def runStateSignFailed : RunState :=
  ⟨0, false, [("manifest.json", [123]), ("steps.jsonl", [1, 2])],
    .error "Private key not found: default",
    fun a => (a == [("manifest.json", [123]), ("steps.jsonl", [1, 2])], "OK")⟩

/-- A concrete run state: child failed with return code 7. -/
def runStateChildFailed : RunState :=
  ⟨7, false, [], .error "no key", fun _ => (true, "OK")⟩

/-- A concrete run state: child succeeded, verification fails. -/
def runStateVerifyFails : RunState :=
  ⟨0, false, [], .ok [], fun _ => (false, "Integrity check failed (1 mismatches)")⟩

/-- A concrete run state: child succeeded, `--no-verify` given. -/
def runStateNoVerify : RunState :=
  ⟨0, true, [], .ok [], fun _ => (false, "never called")⟩

/- ### Re-sign rewrite of the archive (src/epi_cli/run.py lines 260-269) -/

/-- Embedding of the rewrite loop (lines 262-267): copy every entry except
`manifest.json` in order, then write the signed manifest. -/
def resignRewrite (archive : Archive) (signedManifest : Bytes) : Archive :=
  (archive.filter (fun e => e.1 != "manifest.json")) ++
    [("manifest.json", signedManifest)]

/- ### Atomicity of the re-sign rewrite (src/epi_cli/run.py lines 261-269)

The rewrite stages the updated archive into `out.with_suffix(".epi.tmp")`
(incremental `writestr` calls) and promotes it with `temp_zip.replace(out)`
(`os.replace`, an atomic rename).  The filesystem is a map from paths to
optional archive contents, and the operation is a list of primitive steps
that may be cut off after any prefix. -/

/-- A filesystem state: each path holds an optional file (an archive). -/
def FState := String → Option Archive

/-- The primitive filesystem steps the rewrite performs. -/
inductive FSOp where
  | write (path : String) (content : Archive)
  | replace (src dst : String)

/-- Effect of one step: a write stores content at its path; a replace
atomically moves the source file over the destination. -/
def applyOp (fs : FState) : FSOp → FState
  | .write p c => fun q => if q = p then some c else fs q
  | .replace src dst =>
      fun q => if q = src then none else if q = dst then fs src else fs q

/-- Running a list of steps in order. -/
def runOps (fs : FState) : List FSOp → FState
  | [] => fs
  | op :: ops => runOps (applyOp fs op) ops

/-- The contents successively present in the temp file while the output
zip is written: empty on open, then one more entry per `writestr`. -/
def stageContents (arch : Archive) : List Archive :=
  [] :: (List.range arch.length).map (fun i => arch.take (i + 1))

/-- Embedding of `out.with_suffix(".epi.tmp")`: on the ".epi"-suffixed
output path this appends ".tmp". -/
def tempPath (out : String) : String := out ++ ".tmp"

/-- Embedding of the re-sign rewrite (lines 261-269): stage the updated
archive into the temp path write by write, then promote it with a single
`Path.replace` into the output path. -/
def resignOps (out : String) (newArch : Archive) : List FSOp :=
  (stageContents newArch).map (FSOp.write (tempPath out)) ++
    [FSOp.replace (tempPath out) out]

/- ### Metric parsing in `run` (src/epi_cli/run.py lines 183-195) -/

/-- Python dict assignment `d[k] = v` on an insertion-ordered dict:
update in place if the key exists, else append. -/
def dictInsert {κ α : Type} [BEq κ] (d : List (κ × α)) (k : κ) (v : α) :
    List (κ × α) :=
  if (d.find? (fun e => e.1 == k)).isSome then
    d.map (fun e => if e.1 == k then (e.1, v) else e)
  else d ++ [(k, v)]

/-- Splitting a Python string at its first '=' (`m.split("=", 1)`);
`none` when the string contains no '='. -/
def splitFirstEq : PyStr → Option (PyStr × PyStr)
  | [] => none
  | c :: rest =>
      if c = '='.toNat then some ([], rest)
      else
        match splitFirstEq rest with
        | none => none
        | some (k, v) => some (c :: k, v)

/-- A metric value: the result of Python `float(value)` when it parses, or
the raw string otherwise. -/
inductive MetricValue (F : Type) where
  | num (x : F)
  | str (s : PyStr)
  deriving DecidableEq

/-- One iteration of the metric loop (lines 186-195): arguments with an
'=' are split at the first one and bound to `float(value)` when that
parses (the float parser is the parameter `tryFloat`) or to the raw string
otherwise; arguments without '=' only print a warning. -/
def metricStep {F : Type} (tryFloat : PyStr → Option F)
    (d : List (PyStr × MetricValue F)) (m : PyStr) :
    List (PyStr × MetricValue F) :=
  match splitFirstEq m with
  | some (key, value) =>
      dictInsert d key
        (match tryFloat value with
         | some x => MetricValue.num x
         | none => MetricValue.str value)
  | none => d

/-- The loop over all `--metric` arguments, starting from `{}`. -/
def metricsFold {F : Type} (tryFloat : PyStr → Option F) (ms : List PyStr) :
    List (PyStr × MetricValue F) :=
  ms.foldl (metricStep tryFloat) []

/-- Embedding of lines 183-195: `metrics_dict` stays `None` when the
`--metric` list is empty (`if metric:` is falsy for both `None` and `[]`),
else it is the loop's dict. -/
def parseMetrics {F : Type} (tryFloat : PyStr → Option F) (ms : List PyStr) :
    Option (List (PyStr × MetricValue F)) :=
  if ms = [] then none else some (metricsFold tryFloat ms)

/- ### Keystore generation and the CLI `keys` command
(src/epi_cli/main.py lines 124-161) -/

/-- An Ed25519 keypair; key material abstracted to its byte content. -/
structure Keypair where
  priv : Bytes
  pub : Bytes
  deriving DecidableEq

/-- Modelled from the spec: `KeyManager.generate_keypair` lives in
epi_cli/keys.py, which is not under src/.  Per §4.3 it fails with
`AlreadyExists` when the name exists and overwrite is false, leaving the
store unchanged; otherwise it persists the freshly generated pair (a
parameter here) under the name. -/
def generate_keypair (store : List (String × Keypair)) (name : String)
    (overwrite : Bool) (newKp : Keypair) :
    Except String (List (String × Keypair)) :=
  if (store.find? (fun e => e.1 == name)).isSome ∧ overwrite = false then
    .error "AlreadyExists"
  else
    .ok (dictInsert store name newKp)

/-- Modelled from the spec: `KeyManager.load_private_key` (§4.3
`load_private`), failing with `NotFound` when the name is absent. -/
def load_private_key (store : List (String × Keypair)) (name : String) :
    Except String Bytes :=
  match store.find? (fun e => e.1 == name) with
  | some e => .ok e.2.priv
  | none => .error "NotFound"

/-- Embedding of the CLI `keys generate` action (src/epi_cli/main.py lines
135-143): the `FileExistsError` raised by generation is caught and the
command exits 1 with the store untouched; success exits 0. -/
def keysGenerateCmd (store : List (String × Keypair)) (name : String)
    (overwrite : Bool) (newKp : Keypair) :
    (List (String × Keypair)) × Nat :=
  match generate_keypair store name overwrite newKp with
  | .error _ => (store, 1)
  | .ok s => (s, 0)

/- ### Integrity verification (`EPIContainer.verify_integrity`, §4.6) -/

/-- Looking up a recorded digest in the manifest's digest mapping. -/
def digestLookup (dgs : List (EntryName × Nat)) (name : EntryName) : Option Nat :=
  (dgs.find? (fun e => e.1 == name)).map Prod.snd

/-- Modelled from the spec: the per-mapping half of
`EPIContainer.verify_integrity` (epi_core/container.py, not under src/).
Per §4.6, for each entry name in the manifest's digest mapping, read the
archive entry, recompute its digest (the hash function is the parameter
`digest`) and compare; a missing entry or a differing digest is a
mismatch.  All mismatches are collected, none short-circuits. -/
def missingOrChanged (digest : Bytes → Nat) (archive : Archive)
    (dgs : List (EntryName × Nat)) : List EntryName :=
  dgs.filterMap (fun nd =>
    match lookupEntry archive nd.1 with
    | none => some nd.1
    | some payload => if digest payload = nd.2 then none else some nd.1)

/-- Modelled from the spec: the extraneous-content half of §4.6 — an
archive entry absent from the digest mapping is also a mismatch.  The
manifest entry itself is exempt since per the §3 invariant the mapping
covers every archived byte stream except the manifest. -/
def extraneousEntries (archive : Archive) (dgs : List (EntryName × Nat)) :
    List EntryName :=
  (archive.map Prod.fst).filter (fun n =>
    n != "manifest.json" && (digestLookup dgs n).isNone)

/-- Modelled from the spec: `EPIContainer.verify_integrity(path) ->
(ok, mismatches)` (§4.6): the exhaustive mismatch report, with ok true iff
the list is empty. -/
def verify_integrity (digest : Bytes → Nat) (archive : Archive)
    (dgs : List (EntryName × Nat)) : Bool × List EntryName :=
  let mismatches :=
    missingOrChanged digest archive dgs ++ extraneousEntries archive dgs
  (mismatches.isEmpty, mismatches)

/-- Flipping the payload of entry `name` to `p'` (all other entries and
all names kept). -/
def tamperEntry (archive : Archive) (name : EntryName) (p' : Bytes) : Archive :=
  archive.map (fun e => if e.1 == name then (e.1, p') else e)

/-- A toy digest function for concrete evaluation. -/
def wdigest : Bytes → Nat := fun b => b.foldl (fun a x => a * 31 + x) 7

/-- A concrete packed archive. -/
def warch : Archive :=
  [("manifest.json", [0]), ("steps.jsonl", [1, 2, 3]), ("stdout.log", [4])]

/-- The digest mapping a manifest would record for `warch`. -/
def wdgs : List (EntryName × Nat) :=
  [("steps.jsonl", wdigest [1, 2, 3]), ("stdout.log", wdigest [4])]

theorem lowerCP_eq_dot {c : Nat} : lowerCP c = '.'.toNat ↔ c = '.'.toNat := by
  unfold lowerCP
  split
  · simp_all; omega
  · simp_all

theorem lowerCP_eq_p {c : Nat} :
    lowerCP c = 'p'.toNat ↔ (c = 'p'.toNat ∨ c = 'P'.toNat) := by
  unfold lowerCP
  split <;> simp_all <;> omega

theorem lowerCP_eq_y {c : Nat} :
    lowerCP c = 'y'.toNat ↔ (c = 'y'.toNat ∨ c = 'Y'.toNat) := by
  unfold lowerCP
  split <;> simp_all <;> omega

theorem suffix_py_iff (s : PyStr) :
    dotPyCP.isSuffixOf (pyLower s) = true ↔ endsWithPyCI s := by
  rw [List.isSuffixOf_iff_suffix]
  constructor
  · rintro ⟨t, ht⟩
    have hlen : t.length + 3 = s.length := by
      have hl := congrArg List.length ht
      simpa [pyLower, dotPyCP] using hl
    have hsplit : s = s.take (s.length - 3) ++ s.drop (s.length - 3) :=
      (List.take_append_drop _ _).symm
    have hdlen : (s.drop (s.length - 3)).length = 3 := by
      rw [List.length_drop]; omega
    rcases hd : s.drop (s.length - 3) with _ | ⟨x, _ | ⟨y, _ | ⟨z, _ | _⟩⟩⟩ <;>
      rw [hd] at hdlen <;> simp at hdlen
    rw [hd] at hsplit
    rw [hsplit] at ht
    unfold pyLower at ht
    rw [List.map_append] at ht
    have hinj := List.append_inj' ht (by simp [dotPyCP])
    have hmap : [('.').toNat, 'p'.toNat, 'y'.toNat] =
        [lowerCP x, lowerCP y, lowerCP z] := by
      simpa [dotPyCP] using hinj.2
    simp only [List.cons.injEq, and_true] at hmap
    obtain ⟨hx, hy, hz⟩ := hmap
    exact ⟨s.take (s.length - 3), y, z,
      by rw [lowerCP_eq_dot.mp hx.symm] at hsplit; exact hsplit,
      lowerCP_eq_p.mp hy.symm, lowerCP_eq_y.mp hz.symm⟩
  · rintro ⟨t, c1, c2, hs, hc1, hc2⟩
    refine ⟨t.map lowerCP, ?_⟩
    unfold pyLower
    rw [hs, List.map_append]
    congr 1
    simp only [List.map_cons, List.map_nil, dotPyCP]
    rcases hc1 with h | h <;> rcases hc2 with h2 | h2 <;> subst h <;> subst h2 <;> rfl

/-- Claim C10: `_ensure_python_command` prepends `sys.executable` exactly when
the command list is non-empty and its first element ends with ".py"
case-insensitively; for the empty list and for a first element not ending in
".py" it returns the input unchanged. -/
theorem ensure_python_command_spec (exe : PyStr) (cmd : List PyStr) :
    (cmd = [] → ensure_python_command exe cmd = cmd) ∧
    (∀ first rest, cmd = first :: rest →
      (endsWithPyCI first → ensure_python_command exe cmd = exe :: cmd) ∧
      (¬ endsWithPyCI first → ensure_python_command exe cmd = cmd)) := by
  constructor
  · intro h; subst h; rfl
  · intro first rest hcmd
    subst hcmd
    constructor
    · intro h
      have hb := (suffix_py_iff first).mpr h
      simp [ensure_python_command, hb]
    · intro h
      have hb : ¬ (dotPyCP.isSuffixOf (pyLower first) = true) := fun hc =>
        h ((suffix_py_iff first).mp hc)
      simp [ensure_python_command, hb]

/-- Witness for C10 at concrete inputs: "demo.PY" gets the interpreter
prepended, "demo.txt" does not. -/
theorem ensure_python_command_spec_witness :
    ensure_python_command ('p'.toNat :: []) ["demo.PY".toList.map Char.toNat] =
      ['p'.toNat :: [], "demo.PY".toList.map Char.toNat] ∧
    ensure_python_command ('p'.toNat :: []) ["demo.txt".toList.map Char.toNat] =
      ["demo.txt".toList.map Char.toNat] := by
  constructor
  · exact ((ensure_python_command_spec ('p'.toNat :: [])
      ["demo.PY".toList.map Char.toNat]).2
      ("demo.PY".toList.map Char.toNat) [] rfl).1
      ⟨"demo".toList.map Char.toNat, 'P'.toNat, 'Y'.toNat, by decide, by decide,
        by decide⟩
  · exact ((ensure_python_command_spec ('p'.toNat :: [])
      ["demo.txt".toList.map Char.toNat]).2
      ("demo.txt".toList.map Char.toNat) [] rfl).2
      (fun h => by
        have hb := (suffix_py_iff ("demo.txt".toList.map Char.toNat)).mpr h
        revert hb; decide)

/-- Claim C2: in `_verify_recording`, a signed manifest whose signer has no
loadable local public key yields an overall pass (success = true), the same
optimistic outcome as an unsigned manifest, while the reason string still
distinguishes the key-unavailable case from a cryptographic rejection,
which yields success = false. -/
theorem verify_recording_optimistic_pass (env : VerifyEnv) (m : ManifestModel)
    (sig : SignatureBlock) (ms : List EntryName) (pk : Nat) (msg emsg : String) :
    (env.readManifest = .ok m → env.verifyIntegrity = .ok (true, ms) →
      m.signature = some sig →
      env.loadPublicKey (signerOrDefault sig.signer) = .error (.fileNotFound emsg) →
      verifyRecording env = (true, "OK (unsigned - no public key)")) ∧
    (env.readManifest = .ok m → env.verifyIntegrity = .ok (true, ms) →
      m.signature = none →
      verifyRecording env = (true, "OK (unsigned)")) ∧
    (env.readManifest = .ok m → env.verifyIntegrity = .ok (true, ms) →
      m.signature = some sig →
      env.loadPublicKey (signerOrDefault sig.signer) = .ok pk →
      env.verifySignature pk = .ok (false, msg) →
      verifyRecording env = (false, "Signature invalid: " ++ msg)) ∧
    ("OK (unsigned - no public key)" ≠ "OK (unsigned)") := by
  refine ⟨?_, ?_, ?_, by decide⟩
  · intro h1 h2 h3 h4
    simp [verifyRecording, h1, h2, h3, h4]
  · intro h1 h2 h3
    simp [verifyRecording, h1, h2, h3]
  · intro h1 h2 h3 h4 h5
    simp [verifyRecording, h1, h2, h3, h4, h5]

/-- Witness for C2 on the three concrete environments. -/
theorem verify_recording_optimistic_pass_witness :
    verifyRecording envKeyMissing = (true, "OK (unsigned - no public key)") ∧
    verifyRecording envUnsigned = (true, "OK (unsigned)") ∧
    verifyRecording envSigRejected = (false, "Signature invalid: digest mismatch") :=
  ⟨(verify_recording_optimistic_pass envKeyMissing ⟨some ⟨some "alice"⟩⟩
      ⟨some "alice"⟩ [] 0 "" "key file not found").1 rfl rfl rfl rfl,
   (verify_recording_optimistic_pass envUnsigned ⟨none⟩ ⟨none⟩ [] 0 "" "").2.1
      rfl rfl rfl,
   (verify_recording_optimistic_pass envSigRejected ⟨some ⟨some "alice"⟩⟩
      ⟨some "alice"⟩ [] 7 "digest mismatch" "").2.2.1 rfl rfl rfl rfl rfl⟩

/-- Claim C6: `_verify_recording` maps every outcome to a structured
`(success, reason)` pair instead of propagating exceptions: each erroring
sub-operation is converted into `(false, "Verification failed: ...")`,
integrity failure reports the mismatch count, and an invalid signature
yields success = false with a human-readable reason. -/
theorem verify_recording_structured_errors (env : VerifyEnv) (m : ManifestModel)
    (e : PyExc) (ms : List EntryName) (sig : SignatureBlock) (pk : Nat)
    (msg m2 : String) :
    (env.readManifest = .error e →
      verifyRecording env = (false, "Verification failed: " ++ excMsg e)) ∧
    (env.readManifest = .ok m → env.verifyIntegrity = .error e →
      verifyRecording env = (false, "Verification failed: " ++ excMsg e)) ∧
    (env.readManifest = .ok m → env.verifyIntegrity = .ok (false, ms) →
      verifyRecording env =
        (false, "Integrity check failed (" ++ toString ms.length ++
          " mismatches)")) ∧
    (env.readManifest = .ok m → env.verifyIntegrity = .ok (true, ms) →
      m.signature = some sig →
      env.loadPublicKey (signerOrDefault sig.signer) = .error (.other m2) →
      verifyRecording env = (false, "Verification failed: " ++ m2)) ∧
    (env.readManifest = .ok m → env.verifyIntegrity = .ok (true, ms) →
      m.signature = some sig →
      env.loadPublicKey (signerOrDefault sig.signer) = .ok pk →
      env.verifySignature pk = .error (.other m2) →
      verifyRecording env = (false, "Verification failed: " ++ m2)) ∧
    (env.readManifest = .ok m → env.verifyIntegrity = .ok (true, ms) →
      m.signature = some sig →
      env.loadPublicKey (signerOrDefault sig.signer) = .ok pk →
      env.verifySignature pk = .ok (false, msg) →
      verifyRecording env = (false, "Signature invalid: " ++ msg)) := by
  refine ⟨?_, ?_, ?_, ?_, ?_, ?_⟩
  · intro h1; simp [verifyRecording, h1]
  · intro h1 h2; simp [verifyRecording, h1, h2]
  · intro h1 h2; simp [verifyRecording, h1, h2]
  · intro h1 h2 h3 h4; simp [verifyRecording, h1, h2, h3, h4]
  · intro h1 h2 h3 h4 h5; simp [verifyRecording, h1, h2, h3, h4, h5]
  · intro h1 h2 h3 h4 h5; simp [verifyRecording, h1, h2, h3, h4, h5]

/-- Witness for C6 on concrete environments covering an exception and an
integrity failure. -/
theorem verify_recording_structured_errors_witness :
    verifyRecording envReadRaises = (false, "Verification failed: zip is corrupt") ∧
    verifyRecording envTampered =
      (false, "Integrity check failed (2 mismatches)") :=
  ⟨(verify_recording_structured_errors envReadRaises ⟨none⟩ (.other "zip is corrupt")
      [] ⟨none⟩ 0 "" "").1 rfl,
   (verify_recording_structured_errors envTampered ⟨none⟩ (.other "")
      ["steps.jsonl", "stdout.log"] ⟨none⟩ 0 "" "").2.2.1 rfl rfl⟩

/-- Claim C5: a failure anywhere in the auto-sign step is non-fatal: the
command still proceeds to verification and reporting with the original
archive at the output path, and the exception does not propagate (the
embedding consumes it as an `Except.error`). -/
theorem auto_sign_failure_nonfatal (s : RunState) (e : String)
    (h : s.signOutcome = .error e) :
    (runTail s).signed = false ∧
    (runTail s).archive = s.archiveAtOut ∧
    (s.noVerify = false →
      ((runTail s).verified, (runTail s).verifyMsg) = s.verifyFn s.archiveAtOut) ∧
    (s.noVerify = true →
      (runTail s).verified = false ∧ (runTail s).verifyMsg = "Skipped") := by
  refine ⟨?_, ?_, ?_, ?_⟩
  · simp [runTail, stagedArchive, h]
  · simp [runTail, stagedArchive, h]
  · intro hv; simp [runTail, runVerifyStep, stagedArchive, h, hv]
  · intro hv; simp [runTail, runVerifyStep, stagedArchive, h, hv]

/-- Witness for C5: with a failed auto-sign the original archive is
verified and reported. -/
theorem auto_sign_failure_nonfatal_witness :
    (runTail runStateSignFailed).signed = false ∧
    (runTail runStateSignFailed).archive = runStateSignFailed.archiveAtOut ∧
    ((runTail runStateSignFailed).verified, (runTail runStateSignFailed).verifyMsg) =
      runStateSignFailed.verifyFn runStateSignFailed.archiveAtOut :=
  have h := auto_sign_failure_nonfatal runStateSignFailed
    "Private key not found: default" rfl
  ⟨h.1, h.2.1, h.2.2.1 rfl⟩

/-- Claim C8: the process exit code of `run` is the child's return code
whenever that is nonzero (taking precedence over verification); 1 when the
child exited 0 but a performed verification failed; 0 when the child
exited 0 and verification passed or was skipped with `--no-verify`. -/
theorem run_exit_code_spec (s : RunState) :
    (s.rc ≠ 0 → (runTail s).exitCode = s.rc) ∧
    (s.rc = 0 → s.noVerify = true → (runTail s).exitCode = 0) ∧
    (s.rc = 0 → s.noVerify = false →
      (runTail s).exitCode =
        (if (s.verifyFn (runTail s).archive).1 then 0 else 1)) := by
  refine ⟨?_, ?_, ?_⟩
  · intro h; simp [runTail, runExitCode, h]
  · intro h hv; simp [runTail, runExitCode, runVerifyStep, h, hv]
  · intro h hv
    simp only [runTail, runExitCode, runVerifyStep, h, hv]
    rcases hb : (s.verifyFn (stagedArchive s).1).1 <;> simp [hb]

/-- Witness for C8 on the three concrete run states. -/
theorem run_exit_code_spec_witness :
    (runTail runStateChildFailed).exitCode = 7 ∧
    (runTail runStateVerifyFails).exitCode = 1 ∧
    (runTail runStateNoVerify).exitCode = 0 :=
  ⟨(run_exit_code_spec runStateChildFailed).1 (by decide),
   by
    have h := (run_exit_code_spec runStateVerifyFails).2.2 rfl rfl
    simpa using h,
   (run_exit_code_spec runStateNoVerify).2.1 rfl rfl⟩

/-- Claim C3: the in-place re-sign rewrite preserves every entry other
than `manifest.json` byte-for-byte: reading any non-manifest name from the
rewritten archive yields exactly the payload it had in the original. -/
theorem resign_preserves_other_entries (archive : Archive) (signedManifest : Bytes)
    (name : EntryName) (h : name ≠ "manifest.json") :
    lookupEntry (resignRewrite archive signedManifest) name =
      lookupEntry archive name := by
  unfold resignRewrite lookupEntry
  induction archive with
  | nil =>
      have h2 : ("manifest.json" == name) = false := by
        rw [beq_eq_false_iff_ne]; exact fun hc => h hc.symm
      simp [List.find?, h2]
  | cons hd tl ih =>
      by_cases hm : hd.1 = "manifest.json"
      · have h1 : (hd.1 != "manifest.json") = false := by simp [hm]
        have h2 : (hd.1 == name) = false := by
          rw [beq_eq_false_iff_ne, hm]; exact fun hc => h hc.symm
        simpa [List.filter_cons, h1, List.find?, h2] using ih
      · have h1 : (hd.1 != "manifest.json") = true := by simp [hm]
        by_cases hn : hd.1 = name
        · have h2 : (hd.1 == name) = true := by simp [beq_iff_eq, hn]
          simp [List.filter_cons, h1, List.find?, h2]
        · have h2 : (hd.1 == name) = false := by simp [beq_eq_false_iff_ne, hn]
          simpa [List.filter_cons, h1, List.find?, h2] using ih

/-- Witness for C3: rewriting a two-entry archive leaves "steps.jsonl"
byte-identical. -/
theorem resign_preserves_other_entries_witness :
    lookupEntry (resignRewrite [("manifest.json", [1]), ("steps.jsonl", [4, 5])]
      [9, 9]) "steps.jsonl" =
      lookupEntry [("manifest.json", [1]), ("steps.jsonl", [4, 5])] "steps.jsonl" ∧
    lookupEntry (resignRewrite [("manifest.json", [1]), ("steps.jsonl", [4, 5])]
      [9, 9]) "steps.jsonl" = some [4, 5] :=
  ⟨resign_preserves_other_entries [("manifest.json", [1]), ("steps.jsonl", [4, 5])]
      [9, 9] "steps.jsonl" (by decide),
   by decide⟩

theorem tempPath_ne (out : String) : tempPath out ≠ out := by
  intro hc
  have hl := congrArg String.length hc
  rw [tempPath, String.length_append] at hl
  have h4 : (".tmp" : String).length = 4 := rfl
  rw [h4] at hl
  omega

theorem runOps_append (fs : FState) (ops1 ops2 : List FSOp) :
    runOps fs (ops1 ++ ops2) = runOps (runOps fs ops1) ops2 := by
  induction ops1 generalizing fs with
  | nil => rfl
  | cons op ops ih => simp [runOps, ih]

theorem runOps_writes_other (cs : List Archive) (fs : FState) (p q : String)
    (h : q ≠ p) : runOps fs (cs.map (FSOp.write p)) q = fs q := by
  induction cs generalizing fs with
  | nil => rfl
  | cons c cs ih =>
      simp only [List.map_cons, runOps, ih]
      simp [applyOp, h]

theorem runOps_writes_self (cs : List Archive) (fs : FState) (p : String) :
    runOps fs (cs.map (FSOp.write p)) p =
      (match cs.getLast? with
       | some c => some c
       | none => fs p) := by
  induction cs generalizing fs with
  | nil => rfl
  | cons c cs ih =>
      simp only [List.map_cons, runOps]
      rw [ih]
      cases cs with
      | nil => simp [applyOp]
      | cons d ds =>
          rw [List.getLast?_cons_cons]
          rcases hlast : (d :: ds).getLast? with _ | x
          · exact absurd (List.getLast?_eq_none_iff.mp hlast) (List.cons_ne_nil d ds)
          · rfl

theorem stageContents_getLast (arch : Archive) :
    (stageContents arch).getLast? = some arch := by
  unfold stageContents
  cases harch : arch with
  | nil => rfl
  | cons a rest =>
      have hn : arch.length = rest.length + 1 := by rw [harch]; rfl
      rw [← harch, hn, List.range_succ, List.map_append]
      have hlast : arch.take (rest.length + 1) = arch := by
        rw [← hn, List.take_length]
      simp only [List.map_cons, List.map_nil]
      rw [hlast]
      have : ([] : Archive) :: ((List.range rest.length).map
          (fun i => arch.take (i + 1)) ++ [arch]) =
          (([] : Archive) :: (List.range rest.length).map
            (fun i => arch.take (i + 1))) ++ [arch] := by simp
      rw [this, List.getLast?_concat]

/-- Claim C4: the re-sign rewrite is atomic with respect to the output
path: every proper prefix of the step list (an interruption before the
final replace) leaves the original file at the output path unchanged, the
partial temp file is never promoted, and the complete run installs the
updated archive at the output path by the single final replace. -/
theorem resign_atomic_replace (fs : FState) (out : String) (newArch : Archive)
    (k : Nat) (hk : k < (resignOps out newArch).length) :
    runOps fs ((resignOps out newArch).take k) out = fs out ∧
    runOps fs (resignOps out newArch) out = some newArch := by
  constructor
  · have hkle : k ≤ ((stageContents newArch).map (FSOp.write (tempPath out))).length := by
      simp [resignOps] at hk
      simp only [List.length_map]
      omega
    rw [resignOps, List.take_append_of_le_length hkle, ← List.map_take]
    exact runOps_writes_other _ fs _ out (fun hc => tempPath_ne out hc.symm)
  · rw [resignOps, runOps_append]
    show applyOp (runOps fs ((stageContents newArch).map (FSOp.write (tempPath out))))
      (FSOp.replace (tempPath out) out) out = some newArch
    have hne : ¬ (out = tempPath out) := fun hc => tempPath_ne out hc.symm
    show (if out = tempPath out then none
      else if out = out then
        runOps fs ((stageContents newArch).map (FSOp.write (tempPath out)))
          (tempPath out)
      else runOps fs ((stageContents newArch).map (FSOp.write (tempPath out))) out)
      = some newArch
    rw [if_neg hne, if_pos rfl, runOps_writes_self, stageContents_getLast]

/-- Witness for C4: a one-entry rewrite over a filesystem holding an
original archive at "a.epi"; interrupting after the first step leaves the
original, the full run installs the new archive. -/
theorem resign_atomic_replace_witness :
    runOps (fun q => if q = "a.epi" then some [("manifest.json", [1])] else none)
      ((resignOps "a.epi" [("manifest.json", [2])]).take 1) "a.epi" =
      some [("manifest.json", [1])] ∧
    runOps (fun q => if q = "a.epi" then some [("manifest.json", [1])] else none)
      (resignOps "a.epi" [("manifest.json", [2])]) "a.epi" =
      some [("manifest.json", [2])] :=
  have h := resign_atomic_replace
    (fun q => if q = "a.epi" then some [("manifest.json", [1])] else none)
    "a.epi" [("manifest.json", [2])] 1 (by decide)
  ⟨h.1, h.2⟩

theorem splitFirstEq_none (m : PyStr) (h : ¬ '='.toNat ∈ m) :
    splitFirstEq m = none := by
  induction m with
  | nil => rfl
  | cons c rest ih =>
      have hc : ¬ (c = '='.toNat) := fun hc => h (hc ▸ List.mem_cons_self c rest)
      have hr : splitFirstEq rest = none :=
        ih (fun hm => h (List.mem_cons_of_mem c hm))
      simp only [splitFirstEq, hr]
      rw [if_neg hc]

theorem splitFirstEq_append (k v : PyStr) (h : ¬ '='.toNat ∈ k) :
    splitFirstEq (k ++ '='.toNat :: v) = some (k, v) := by
  induction k with
  | nil => simp [splitFirstEq]
  | cons c rest ih =>
      have hc : ¬ (c = '='.toNat) := fun hc => h (hc ▸ List.mem_cons_self c rest)
      have hr := ih (fun hm => h (List.mem_cons_of_mem c hm))
      simp only [List.cons_append, splitFirstEq, List.append_eq, hr]
      rw [if_neg hc]

/-- Claim C9: with no `--metric` arguments the metrics field is absent
(`None`) rather than an empty map; an argument `key=value` is split at the
first '=' and bound to `float(value)` when that parses, to the raw string
otherwise; an argument without '=' is silently omitted from the map. -/
theorem parse_metrics_spec {F : Type} (tryFloat : PyStr → Option F)
    (ms ms2 : List PyStr) (m k v : PyStr) :
    (parseMetrics tryFloat [] = none) ∧
    (¬ '='.toNat ∈ k →
      parseMetrics tryFloat [k ++ '='.toNat :: v] =
        some [(k,
          match tryFloat v with
          | some x => MetricValue.num x
          | none => MetricValue.str v)]) ∧
    (¬ '='.toNat ∈ m →
      metricsFold tryFloat (ms ++ m :: ms2) = metricsFold tryFloat (ms ++ ms2)) ∧
    (¬ '='.toNat ∈ m → parseMetrics tryFloat [m] = some []) := by
  refine ⟨rfl, ?_, ?_, ?_⟩
  · intro hk
    have hsplit := splitFirstEq_append k v hk
    unfold parseMetrics
    rw [if_neg (by simp)]
    unfold metricsFold
    rw [List.foldl_cons, List.foldl_nil]
    unfold metricStep
    rw [hsplit]
    simp [dictInsert]
  · intro hm
    have hid : ∀ d, metricStep tryFloat d m = d := by
      intro d; simp [metricStep, splitFirstEq_none m hm]
    unfold metricsFold
    rw [List.foldl_append, List.foldl_append, List.foldl_cons, hid]
  · intro hm
    simp [parseMetrics, metricsFold, metricStep, splitFirstEq_none m hm]

/-- Witness for C9: "a=1" binds key "a" to the parsed number, "a=x" to the
raw string, "bad" is dropped, and the empty argument list gives `None`. -/
theorem parse_metrics_spec_witness :
    parseMetrics (fun s => if s = ['1'.toNat] then some (1 : Nat) else none)
      [] = none ∧
    parseMetrics (fun s => if s = ['1'.toNat] then some (1 : Nat) else none)
      [['a'.toNat] ++ '='.toNat :: ['1'.toNat]] =
      some [(['a'.toNat], MetricValue.num 1)] ∧
    parseMetrics (fun s => if s = ['1'.toNat] then some (1 : Nat) else none)
      [['a'.toNat] ++ '='.toNat :: ['x'.toNat]] =
      some [(['a'.toNat], MetricValue.str ['x'.toNat])] ∧
    parseMetrics (fun s => if s = ['1'.toNat] then some (1 : Nat) else none)
      [['b'.toNat, 'a'.toNat, 'd'.toNat]] = some [] :=
  ⟨(parse_metrics_spec (fun s => if s = ['1'.toNat] then some (1 : Nat) else none)
      [] [] [] ['a'.toNat] ['1'.toNat]).1,
   (parse_metrics_spec (fun s => if s = ['1'.toNat] then some (1 : Nat) else none)
      [] [] [] ['a'.toNat] ['1'.toNat]).2.1 (by decide),
   (parse_metrics_spec (fun s => if s = ['1'.toNat] then some (1 : Nat) else none)
      [] [] [] ['a'.toNat] ['x'.toNat]).2.1 (by decide),
   (parse_metrics_spec (fun s => if s = ['1'.toNat] then some (1 : Nat) else none)
      [] [] ['b'.toNat, 'a'.toNat, 'd'.toNat] [] []).2.2.2 (by decide)⟩

theorem find?_dictInsert {κ α : Type} [BEq κ] [LawfulBEq κ]
    (d : List (κ × α)) (k : κ) (v : α) :
    ((dictInsert d k v).find? (fun e => e.1 == k)) = some (k, v) := by
  unfold dictInsert
  split
  next hsome =>
    induction d with
    | nil => simp at hsome
    | cons hd tl ih =>
        cases hb : (hd.1 == k) with
        | true =>
            have he : hd.1 = k := eq_of_beq hb
            simp [List.find?, hb, he]
        | false =>
            have hif : (if (hd.1 == k) = true then ((hd.1, v) : κ × α) else hd)
                = hd := if_neg (by simp [hb])
            rw [List.map_cons, hif]
            simp only [List.find?, hb] at hsome
            simp only [List.find?, hb]
            exact ih hsome
  next hnone =>
    induction d with
    | nil => simp [List.find?]
    | cons hd tl ih =>
        cases hb : (hd.1 == k) with
        | true =>
            exfalso
            apply hnone
            simp [List.find?, hb]
        | false =>
            rw [List.cons_append]
            simp only [List.find?, hb]
            apply ih
            intro hc
            apply hnone
            simp only [List.find?, hb]
            exact hc

/-- Claim C7: generating a keypair under an existing name with
overwrite = false fails with `AlreadyExists`, surfaced by the CLI as exit
code 1 with the store left in place; with overwrite = true generation
succeeds and a subsequent private-key load under that name returns the new
key, not the old one. -/
theorem generate_keypair_overwrite_spec (store : List (String × Keypair))
    (name : String) (newKp oldKp : Keypair) :
    ((store.find? (fun e => e.1 == name)) = some (name, oldKp) →
      generate_keypair store name false newKp = .error "AlreadyExists" ∧
      keysGenerateCmd store name false newKp = (store, 1)) ∧
    (generate_keypair store name true newKp =
      .ok (dictInsert store name newKp)) ∧
    (∀ s', generate_keypair store name true newKp = .ok s' →
      load_private_key s' name = .ok newKp.priv ∧
      (newKp.priv ≠ oldKp.priv → load_private_key s' name ≠ .ok oldKp.priv)) := by
  refine ⟨?_, ?_, ?_⟩
  · intro h
    have hsome : (store.find? (fun e => e.1 == name)).isSome = true := by
      rw [h]; rfl
    constructor
    · simp [generate_keypair, hsome]
    · simp [keysGenerateCmd, generate_keypair, hsome]
  · simp [generate_keypair]
  · intro s' hs'
    have hgen : generate_keypair store name true newKp =
        .ok (dictInsert store name newKp) := by simp [generate_keypair]
    rw [hgen] at hs'
    have hs'' : s' = dictInsert store name newKp := by
      injection hs' with h; exact h.symm
    subst hs''
    have hfind := find?_dictInsert store name newKp
    constructor
    · simp [load_private_key, hfind]
    · intro hne hc
      simp [load_private_key, hfind] at hc
      exact hne hc

/-- Witness for C7: a one-key store; regeneration without overwrite exits
1 and keeps the store, with overwrite the new private key is loaded. -/
theorem generate_keypair_overwrite_spec_witness :
    generate_keypair [("default", ⟨[1], [2]⟩)] "default" false ⟨[3], [4]⟩ =
      .error "AlreadyExists" ∧
    keysGenerateCmd [("default", ⟨[1], [2]⟩)] "default" false ⟨[3], [4]⟩ =
      ([("default", ⟨[1], [2]⟩)], 1) ∧
    load_private_key (dictInsert [("default", ⟨[1], [2]⟩)] "default" ⟨[3], [4]⟩)
      "default" = .ok [3] :=
  have h := generate_keypair_overwrite_spec [("default", ⟨[1], [2]⟩)] "default"
    ⟨[3], [4]⟩ ⟨[1], [2]⟩
  have h1 := h.1 (by decide)
  ⟨h1.1, h1.2,
   (h.2.2 (dictInsert [("default", ⟨[1], [2]⟩)] "default" ⟨[3], [4]⟩) h.2.1).1⟩

theorem tamper_names (archive : Archive) (name : EntryName) (p' : Bytes) :
    (tamperEntry archive name p').map Prod.fst = archive.map Prod.fst := by
  unfold tamperEntry
  induction archive with
  | nil => rfl
  | cons hd tl ih =>
      rw [List.map_cons, List.map_cons, List.map_cons, ih]
      cases hb : (hd.1 == name) with
      | true => simp
      | false => simp

theorem lookup_tamper_self (archive : Archive) (name : EntryName) (p' : Bytes) :
    lookupEntry (tamperEntry archive name p') name =
      (lookupEntry archive name).map (fun _ => p') := by
  unfold tamperEntry lookupEntry
  induction archive with
  | nil => rfl
  | cons hd tl ih =>
      cases hb : (hd.1 == name) with
      | true =>
          have hif : (if (hd.1 == name) = true then ((hd.1, p') : EntryName × Bytes)
              else hd) = (hd.1, p') := if_pos hb
          rw [List.map_cons, hif]
          simp only [List.find?, hb]
          rfl
      | false =>
          have hif : (if (hd.1 == name) = true then ((hd.1, p') : EntryName × Bytes)
              else hd) = hd := if_neg (by simp [hb])
          rw [List.map_cons, hif]
          simp only [List.find?, hb]
          exact ih

theorem lookup_tamper_ne (archive : Archive) (name n : EntryName) (p' : Bytes)
    (h : n ≠ name) :
    lookupEntry (tamperEntry archive name p') n = lookupEntry archive n := by
  unfold tamperEntry lookupEntry
  induction archive with
  | nil => rfl
  | cons hd tl ih =>
      cases hb : (hd.1 == name) with
      | true =>
          have he : hd.1 = name := eq_of_beq hb
          have hif : (if (hd.1 == name) = true then ((hd.1, p') : EntryName × Bytes)
              else hd) = (hd.1, p') := if_pos hb
          have hbn : (hd.1 == n) = false := by
            rw [he]; exact beq_eq_false_iff_ne.mpr (fun hc => h hc.symm)
          rw [List.map_cons, hif]
          simp only [List.find?, hbn]
          exact ih
      | false =>
          have hif : (if (hd.1 == name) = true then ((hd.1, p') : EntryName × Bytes)
              else hd) = hd := if_neg (by simp [hb])
          rw [List.map_cons, hif]
          cases hbn : (hd.1 == n) with
          | true => simp only [List.find?, hbn]
          | false => simp only [List.find?, hbn]; exact ih

theorem find?_key {α : Type} (l : List (EntryName × α)) (name : EntryName)
    (e : EntryName × α) (h : l.find? (fun x => x.1 == name) = some e) :
    e.1 = name ∧ e ∈ l := by
  have h1 := List.find?_some h
  have h2 : (e.1 == name) = true := h1
  exact ⟨eq_of_beq h2, List.mem_of_find?_eq_some h⟩

theorem filterMap_key_single (f : EntryName × Nat → Option EntryName)
    (dgs : List (EntryName × Nat)) (name : EntryName)
    (hone : ∀ nd ∈ dgs, f nd = if nd.1 = name then some name else none)
    (hmem : name ∈ dgs.map Prod.fst)
    (hnodup : (dgs.map Prod.fst).Nodup) :
    dgs.filterMap f = [name] := by
  induction dgs with
  | nil => simp at hmem
  | cons nd tl ih =>
      rw [List.map_cons] at hmem hnodup
      by_cases h : nd.1 = name
      · have hf : f nd = some name := by
          rw [hone nd (List.mem_cons_self nd tl), if_pos h]
        have htl : tl.filterMap f = [] := by
          rw [List.filterMap_eq_nil_iff]
          intro md hmd
          have hmdn : ¬ md.1 = name := by
            intro hc
            have hm1 : name ∈ tl.map Prod.fst :=
              hc ▸ List.mem_map_of_mem Prod.fst hmd
            have hm2 := (List.nodup_cons.mp hnodup).1
            rw [h] at hm2
            exact hm2 hm1
          rw [hone md (List.mem_cons_of_mem nd hmd), if_neg hmdn]
        simp only [List.filterMap_cons, hf, htl]
      · have hf : f nd = none := by
          rw [hone nd (List.mem_cons_self nd tl), if_neg h]
        simp only [List.filterMap_cons, hf]
        apply ih
        · intro md hmd; exact hone md (List.mem_cons_of_mem nd hmd)
        · rcases List.mem_cons.mp hmem with hc | hc
          · exact absurd hc.symm h
          · exact hc
        · exact (List.nodup_cons.mp hnodup).2

/-- Claim C1: `verify_integrity` returns `(ok, mismatches)` with ok true
iff the mismatch list is empty, collecting every mismatching entry without
short-circuiting; and flipping a single byte of one non-manifest entry of
an archive that verified clean (provided the digest of the flipped payload
changes, which is what the collision-resistant hash guarantees) makes
exactly that entry, and no other, appear in the mismatch list. -/
theorem verify_integrity_spec (digest : Bytes → Nat) (archive : Archive)
    (dgs : List (EntryName × Nat)) (name : EntryName) (p p' : Bytes)
    (i b : Nat) :
    ((verify_integrity digest archive dgs).1 = true ↔
      (verify_integrity digest archive dgs).2 = []) ∧
    (verify_integrity digest archive dgs = (true, []) →
      name ≠ "manifest.json" →
      lookupEntry archive name = some p →
      i < p.length → p.getD i 0 ≠ b → p' = p.set i b →
      digest p' ≠ digest p →
      (dgs.map Prod.fst).Nodup →
      verify_integrity digest (tamperEntry archive name p') dgs =
        (false, [name])) := by
  constructor
  · show (missingOrChanged digest archive dgs ++
      extraneousEntries archive dgs).isEmpty = true ↔
      (missingOrChanged digest archive dgs ++
        extraneousEntries archive dgs) = []
    exact List.isEmpty_iff
  · intro hok hname hlook _ _ _ hdig hnodup
    have hmm : missingOrChanged digest archive dgs ++
        extraneousEntries archive dgs = [] := congrArg Prod.snd hok
    have hmc : missingOrChanged digest archive dgs = [] :=
      (List.append_eq_nil.mp hmm).1
    have hex : extraneousEntries archive dgs = [] :=
      (List.append_eq_nil.mp hmm).2
    have hall : ∀ nd ∈ dgs, ∃ q,
        lookupEntry archive nd.1 = some q ∧ digest q = nd.2 := by
      intro nd hnd
      unfold missingOrChanged at hmc
      have hnone := List.filterMap_eq_nil_iff.mp hmc nd hnd
      rcases hl : lookupEntry archive nd.1 with _ | q
      · rw [hl] at hnone; simp at hnone
      · refine ⟨q, rfl, ?_⟩
        rw [hl] at hnone
        by_contra hne
        simp [hne] at hnone
    have hmemA : name ∈ archive.map Prod.fst := by
      unfold lookupEntry at hlook
      rcases hfind : archive.find? (fun e => e.1 == name) with _ | e
      · rw [hfind] at hlook; simp at hlook
      · obtain ⟨hkey, hmem⟩ := find?_key archive name e hfind
        exact hkey ▸ List.mem_map_of_mem Prod.fst hmem
    have hmemD : name ∈ dgs.map Prod.fst := by
      unfold extraneousEntries at hex
      have hfe := List.filter_eq_nil_iff.mp hex name hmemA
      rcases hD : dgs.find? (fun e => e.1 == name) with _ | nd0
      · exfalso
        apply hfe
        have h1 : (name != "manifest.json") = true := by
          simp only [bne_iff_ne, ne_eq]; exact hname
        rw [h1]
        unfold digestLookup
        rw [hD]
        rfl
      · obtain ⟨hkey, hmem⟩ := find?_key dgs name nd0 hD
        exact hkey ▸ List.mem_map_of_mem Prod.fst hmem
    have hG : missingOrChanged digest (tamperEntry archive name p') dgs
        = [name] := by
      unfold missingOrChanged
      apply filterMap_key_single _ dgs name _ hmemD hnodup
      intro md hmd
      obtain ⟨q', hq', hdq'⟩ := hall md hmd
      by_cases hmn : md.1 = name
      · rw [if_pos hmn]
        rw [hmn] at hq'
        have hq'p : q' = p := Option.some.inj (hq'.symm.trans hlook)
        have hlt : lookupEntry (tamperEntry archive name p') md.1
            = some p' := by
          rw [hmn, lookup_tamper_self, hlook]; rfl
        show (match lookupEntry (tamperEntry archive name p') md.1 with
          | none => some md.1
          | some payload =>
              if digest payload = md.2 then none else some md.1) = some name
        rw [hlt]
        have hne2 : ¬ (digest p' = md.2) := by
          rw [← hdq', hq'p]; exact hdig
        simp [hne2, hmn]
      · rw [if_neg hmn]
        have hlt : lookupEntry (tamperEntry archive name p') md.1
            = lookupEntry archive md.1 :=
          lookup_tamper_ne archive name md.1 p' hmn
        show (match lookupEntry (tamperEntry archive name p') md.1 with
          | none => some md.1
          | some payload =>
              if digest payload = md.2 then none else some md.1) = none
        rw [hlt, hq']
        simp [hdq']
    have hH : extraneousEntries (tamperEntry archive name p') dgs = [] := by
      unfold extraneousEntries
      rw [tamper_names]
      unfold extraneousEntries at hex
      exact hex
    unfold verify_integrity
    rw [hG, hH]
    simp

/-- Witness for C1: the clean archive verifies with an empty report;
flipping byte 2 of "steps.jsonl" from 3 to 9 makes exactly that entry the
whole mismatch list. -/
theorem verify_integrity_spec_witness :
    verify_integrity wdigest warch wdgs = (true, []) ∧
    verify_integrity wdigest
      (tamperEntry warch "steps.jsonl" ([1, 2, 3].set 2 9)) wdgs =
      (false, ["steps.jsonl"]) :=
  ⟨by decide,
   (verify_integrity_spec wdigest warch wdgs "steps.jsonl" [1, 2, 3]
      ([1, 2, 3].set 2 9) 2 9).2 (by decide) (by decide) (by decide)
      (by decide) (by decide) (by decide) (by decide) (by decide)⟩

end EPI
